import Mathlib

/-!
Shallow embedding of the byte-flags library (BaseFlags.ts, ByteFlags.ts,
ShortFlags.ts, LongFlags.ts).

The source is TypeScript.  Its bitwise operators (`|`, `&`, `~`, `<<`, `^`)
follow the ECMAScript semantics: both operands are converted with ToInt32
(take the value modulo 2^32 and reinterpret the low 32 bits as a signed
twos-complement integer), the operation is performed on 32 bits, and the
result is again a signed 32-bit integer.  Numbers themselves (class field
`value`) are not truncated outside of bitwise operations.  We model JS
numbers that the library stores as `Int` (all stored values are integers:
`value` starts at 0, `fromValue` validates `Number.isInteger`, and bitwise
ops produce integers), and arguments of `fromValue` as `Rat` so that the
`Number.isInteger` check on non-integer inputs is expressible.
-/

/-- ECMAScript ToUint32: the value modulo 2^32, as a natural number. -/
def jsToUint32 (n : Int) : Nat := (n % (4294967296 : Int)).toNat

/-- ECMAScript ToInt32: the low 32 bits of the value, reinterpreted as a
signed twos-complement 32-bit integer. -/
def jsToInt32 (n : Int) : Int :=
  if jsToUint32 n < 2147483648 then (jsToUint32 n : Int)
  else (jsToUint32 n : Int) - 4294967296

/-- JavaScript `a << b`: 32-bit left shift, shift count taken mod 32. -/
def jsShl (a : Int) (b : Nat) : Int := jsToInt32 ((jsToUint32 a) <<< (b % 32) : Nat)

/-- JavaScript `a | b`: bitwise OR on 32-bit operands. -/
def jsOr (a b : Int) : Int := jsToInt32 (Nat.lor (jsToUint32 a) (jsToUint32 b))

/-- JavaScript `a & b`: bitwise AND on 32-bit operands. -/
def jsAnd (a b : Int) : Int := jsToInt32 (Nat.land (jsToUint32 a) (jsToUint32 b))

/-- JavaScript `~a`: bitwise NOT on a 32-bit operand. -/
def jsNot (a : Int) : Int := jsToInt32 (Nat.xor (jsToUint32 a) 4294967295)

/-- Error kinds of the library, following the classification of its throw
sites: `invalidArgument` for construction-shape errors and `fromValue`
range errors, `duplicateName` for a duplicated flag name, `unknownFlag`
for a single-flag access with an unregistered name.  The payload is the
message text or the offending name. -/
inductive FlagError where
  | invalidArgument (msg : String)
  | duplicateName (name : String)
  | unknownFlag (name : String)
  deriving DecidableEq, Repr

/-- State of a `BaseFlags` instance (BaseFlags.ts): the stored integer
`value`, the running `nextIndex`, the ordered `flagList`, and the
`flagIndices` map (modelled as the insertion-ordered association list that
the `Map` holds; `addFlag` only ever inserts fresh keys). -/
structure BaseFlags where
  value : Int
  nextIndex : Nat
  flagList : List String
  flagIndices : List (String × Nat)
  deriving DecidableEq, Repr

/-- Lookup as `Map.get` on the insertion-ordered association list. -/
def mapGet (m : List (String × Nat)) (k : String) : Option Nat :=
  (m.find? (fun p => p.1 == k)).map Prod.snd

/-- Source `getBit`: `Boolean(this.value & (1 << position))`. -/
def BaseFlags.getBit (s : BaseFlags) (position : Nat) : Bool :=
  decide (jsAnd s.value (jsShl 1 position) ≠ 0)

/-- Source `setBit`: `this.value |= 1 << position` or `this.value &= ~(1 << position)`. -/
def BaseFlags.setBit (s : BaseFlags) (position : Nat) (value : Bool) : BaseFlags :=
  if value then { s with value := jsOr s.value (jsShl 1 position) }
  else { s with value := jsAnd s.value (jsNot (jsShl 1 position)) }

/-- Source `hasFlag`: `this.flagIndices.has(name)`. -/
def BaseFlags.hasFlag (s : BaseFlags) (name : String) : Bool :=
  (mapGet s.flagIndices name).isSome

/-- Source `getFlag`: throws `UnknownFlag` when the name is not registered,
otherwise reads the bit at the registered index.  (The source guards with
`hasFlag` and then uses a non-null map lookup; both reduce to the single
lookup below.) -/
def BaseFlags.getFlag (s : BaseFlags) (name : String) : Except FlagError Bool :=
  match mapGet s.flagIndices name with
  | Option.none => .error (.unknownFlag name)
  | Option.some idx => .ok (s.getBit idx)

/-- Source `setFlag`: throws `UnknownFlag` when the name is not registered,
otherwise sets the bit at the registered index and returns the instance. -/
def BaseFlags.setFlag (s : BaseFlags) (name : String) (value : Bool) :
    Except FlagError BaseFlags :=
  match mapGet s.flagIndices name with
  | Option.none => .error (.unknownFlag name)
  | Option.some idx => .ok (s.setBit idx value)

/-- Source `toggleFlag`: throws `UnknownFlag` when the name is not registered,
otherwise `setBit(idx, !getBit(idx))`. -/
def BaseFlags.toggleFlag (s : BaseFlags) (name : String) :
    Except FlagError BaseFlags :=
  match mapGet s.flagIndices name with
  | Option.none => .error (.unknownFlag name)
  | Option.some idx => .ok (s.setBit idx (!(s.getBit idx)))

/-- Source `setFlags`: for each entry of the mapping (in its order), if the key is
registered, `setFlag` it; unknown keys are skipped. -/
def BaseFlags.setFlags (s : BaseFlags) (flags : List (String × Bool)) :
    Except FlagError BaseFlags :=
  flags.foldlM
    (fun acc p => if acc.hasFlag p.1 then acc.setFlag p.1 p.2 else .ok acc) s

/-- Source `toggleFlags`: for each name, if registered, `toggleFlag` it; unknown
names are skipped. -/
def BaseFlags.toggleFlags (s : BaseFlags) (names : List String) :
    Except FlagError BaseFlags :=
  names.foldlM
    (fun acc name => if acc.hasFlag name then acc.toggleFlag name else .ok acc) s

/-- Source `count`: loop `for (i = 0; i < nextIndex; i++) if (getBit(i)) count++`. -/
def BaseFlags.count (s : BaseFlags) : Nat :=
  (List.range s.nextIndex).countP (fun i => s.getBit i)

/-- Source `any`: `this.value !== 0`. -/
def BaseFlags.any (s : BaseFlags) : Bool := decide (s.value ≠ 0)

/-- Source `none`: `this.value === 0`. -/
def BaseFlags.none (s : BaseFlags) : Bool := decide (s.value = 0)

/-- Source `toValue`: returns the stored integer. -/
def BaseFlags.toValue (s : BaseFlags) : Int := s.value

/-- Source `fromValue`: validates `Number.isInteger(v) && 0 <= v <= MAX_VALUE`
(the check precedes the assignment, so an error leaves the instance as it
was), then replaces `value` wholesale. -/
def BaseFlags.fromValue (MAX_VALUE : Int) (s : BaseFlags) (v : Rat) :
    Except FlagError BaseFlags :=
  if ¬(v.den = 1) ∨ v < 0 ∨ v > (MAX_VALUE : Rat) then
    .error (.invalidArgument ("Value must be integer 0-" ++ toString MAX_VALUE))
  else .ok { s with value := v.num }

/-- Source `toObject`: the (name, current value) pairs in registration order.
The error arm is unreachable: every name in `flagList` is registered. -/
def BaseFlags.toObject (s : BaseFlags) : List (String × Bool) :=
  s.flagList.map (fun name =>
    (name, match s.getFlag name with
           | .ok b => b
           | .error _ => false))

/-- Source `getFlagNames`: copy of the registry in registration order. -/
def BaseFlags.getFlagNames (s : BaseFlags) : List String := s.flagList

/-- Deprecated `getFlags` alias of `getFlagNames`. -/
def BaseFlags.getFlags (s : BaseFlags) : List String := s.getFlagNames

/-- Source `all(...flags)`: `flags.every((flag) => this.getFlag(flag))`. -/
def BaseFlags.all (s : BaseFlags) (flags : List String) : Except FlagError Bool :=
  flags.allM (fun flag => s.getFlag flag)

/-- Source `anyOf(...flags)`: `flags.some((flag) => this.getFlag(flag))`. -/
def BaseFlags.anyOf (s : BaseFlags) (flags : List String) : Except FlagError Bool :=
  flags.anyM (fun flag => s.getFlag flag)

/-- Source `noneOf(...flags)`: `!this.anyOf(...flags)`. -/
def BaseFlags.noneOf (s : BaseFlags) (flags : List String) : Except FlagError Bool :=
  (s.anyOf flags).map (fun b => !b)

/-- Source `addFlag`: capacity check, blank-name check, duplicate check, then
register the name at index `nextIndex`.  (The `Object.defineProperty`
accessors it also installs delegate to `getBit`/`setBit` at the same index
and carry no further state.) -/
def BaseFlags.addFlag (MAX_FLAGS : Nat) (s : BaseFlags) (name : String) :
    Except FlagError BaseFlags :=
  if s.nextIndex ≥ MAX_FLAGS then
    .error (.invalidArgument ("Cannot add more than " ++ toString MAX_FLAGS ++ " flags"))
  else if name.trim = "" then
    .error (.invalidArgument "Flag name must be a non-empty string")
  else if s.flagList.contains name then
    .error (.duplicateName name)
  else
    .ok { s with
      nextIndex := s.nextIndex + 1,
      flagList := s.flagList ++ [name],
      flagIndices := s.flagIndices ++ [(name, s.nextIndex)] }

/-- Field initializers of a fresh instance. -/
def BaseFlags.init : BaseFlags :=
  { value := 0, nextIndex := 0, flagList := [], flagIndices := [] }

/-- The `BaseFlags` constructor: rejects an empty name list, then adds each
name in order. -/
def mkBaseFlags (MAX_FLAGS : Nat) (flagNames : List String) :
    Except FlagError BaseFlags :=
  if flagNames.length = 0 then
    .error (.invalidArgument "At least one flag name must be provided")
  else flagNames.foldlM (fun s n => s.addFlag MAX_FLAGS n) BaseFlags.init

/-- The `ByteFlags` constructor (ByteFlags.ts): `MAX_FLAGS = 8`. -/
def mkByteFlags (flagNames : List String) : Except FlagError BaseFlags :=
  if flagNames.length > 8 then
    .error (.invalidArgument "Cannot have more than 8 flags")
  else mkBaseFlags 8 flagNames

/-- The `ShortFlags` constructor (ShortFlags.ts): `MAX_FLAGS = 16`. -/
def mkShortFlags (flagNames : List String) : Except FlagError BaseFlags :=
  if flagNames.length > 16 then
    .error (.invalidArgument "Cannot have more than 16 flags")
  else mkBaseFlags 16 flagNames

/-- The `LongFlags` constructor (LongFlags.ts): `MAX_FLAGS = 32`. -/
def mkLongFlags (flagNames : List String) : Except FlagError BaseFlags :=
  if flagNames.length > 32 then
    .error (.invalidArgument "Cannot have more than 32 flags")
  else mkBaseFlags 32 flagNames

/-- Source `ByteFlags.toByte`: alias of `toValue`. -/
def BaseFlags.toByte (s : BaseFlags) : Int := s.toValue

/-- Source `ByteFlags.fromByte`: alias of `fromValue` with `MAX_BYTE_VALUE = 0xff`. -/
def BaseFlags.fromByte (s : BaseFlags) (b : Rat) : Except FlagError BaseFlags :=
  s.fromValue 255 b

/-- Source `ShortFlags.toShort`: alias of `toValue`. -/
def BaseFlags.toShort (s : BaseFlags) : Int := s.toValue

/-- Source `ShortFlags.fromShort`: alias of `fromValue` with `MAX_VALUE = 0xffff`. -/
def BaseFlags.fromShort (s : BaseFlags) (v : Rat) : Except FlagError BaseFlags :=
  s.fromValue 65535 v

/-- Source `LongFlags.toLong`: alias of `toValue`. -/
def BaseFlags.toLong (s : BaseFlags) : Int := s.toValue

/-- Source `LongFlags.fromLong`: alias of `fromValue` with `MAX_VALUE = 0xffffffff`. -/
def BaseFlags.fromLong (s : BaseFlags) (v : Rat) : Except FlagError BaseFlags :=
  s.fromValue 4294967295 v

/-- A string is a canonical array-index key in the ECMAScript sense:
the decimal representation of an integer in `[0, 2^32 - 2]`. -/
def isArrayIndexKey (s : String) : Bool :=
  match s.toNat? with
  | Option.some n => Nat.repr n == s && decide (n < 4294967295)
  | Option.none => false

/-- Numeric value of an array-index key (0 for others; only used to order
array-index keys). -/
def keyNum (s : String) : Nat := s.toNat?.getD 0

/-- ECMAScript own-property order for a plain object built by assignment:
array-index keys first in ascending numeric order, then the remaining keys
in insertion order.  `JSON.stringify` and `Object.keys` both follow it. -/
def jsKeyOrder (l : List (String × Bool)) : List (String × Bool) :=
  ((l.filter (fun p => isArrayIndexKey p.1)).mergeSort
      (fun a b => keyNum a.1 ≤ keyNum b.1))
    ++ l.filter (fun p => !isArrayIndexKey p.1)

/-- Source `toJSON` produces the JSON text of the object built by `toObject`; a
flat boolean object is encoded losslessly, so we model the text by the
ordered field list the parser recovers from it, which is `toObject` in the
host property order. -/
def BaseFlags.toJSON (s : BaseFlags) : List (String × Bool) :=
  jsKeyOrder s.toObject

/-- Source `ByteFlags.fromJSON` on an already-parsed object: construct a new
instance from the object keys in their property order, then `setFlags`. -/
def byteFlagsFromJSON (obj : List (String × Bool)) : Except FlagError BaseFlags :=
  mkByteFlags (obj.map Prod.fst) >>= fun inst => inst.setFlags obj

/-- Source `ShortFlags.fromJSON` on an already-parsed object. -/
def shortFlagsFromJSON (obj : List (String × Bool)) : Except FlagError BaseFlags :=
  mkShortFlags (obj.map Prod.fst) >>= fun inst => inst.setFlags obj

/-- Source `LongFlags.fromJSON` on an already-parsed object. -/
def longFlagsFromJSON (obj : List (String × Bool)) : Except FlagError BaseFlags :=
  mkLongFlags (obj.map Prod.fst) >>= fun inst => inst.setFlags obj

deriving instance DecidableEq for Except

/-! ## Lemmas about the 32-bit conversions -/

theorem jsToUint32_lt (n : Int) : jsToUint32 n < 4294967296 := by
  unfold jsToUint32
  omega

theorem jsToUint32_natCast (m : Nat) (h : m < 4294967296) :
    jsToUint32 (m : Int) = m := by
  unfold jsToUint32
  omega

theorem jsToUint32_jsToInt32 (n : Int) :
    jsToUint32 (jsToInt32 n) = jsToUint32 n := by
  unfold jsToInt32 jsToUint32
  split <;> omega

theorem jsToInt32_natCast_eq_zero_iff (m : Nat) (h : m < 4294967296) :
    jsToInt32 (m : Int) = 0 ↔ m = 0 := by
  unfold jsToInt32 jsToUint32
  split <;> omega

/-- The shift `1 << i` contributes exactly the bit pattern `2 ^ i` for
`i < 32`. -/
theorem jsToUint32_jsShl_one (i : Nat) (hi : i < 32) :
    jsToUint32 (jsShl 1 i) = 2 ^ i := by
  unfold jsShl
  rw [jsToUint32_jsToInt32]
  have h1 : jsToUint32 1 = 1 := by unfold jsToUint32; decide
  have h2 : i % 32 = i := Nat.mod_eq_of_lt hi
  rw [h1, h2, Nat.shiftLeft_eq, one_mul]
  exact jsToUint32_natCast _ (by
    have : (2 : Nat) ^ i < 2 ^ 32 := Nat.pow_lt_pow_right (by norm_num) hi
    omega)

/-- Reading: `getBit` reads bit `i` of the 32-bit pattern of the stored value. -/
theorem getBit_eq_testBit (s : BaseFlags) (i : Nat) (hi : i < 32) :
    s.getBit i = (jsToUint32 s.value).testBit i := by
  have hlt : (2 : Nat) ^ i < 4294967296 := by
    have : (2 : Nat) ^ i < 2 ^ 32 := Nat.pow_lt_pow_right (by norm_num) hi
    omega
  unfold BaseFlags.getBit jsAnd
  rw [jsToUint32_jsShl_one i hi]
  have hland : Nat.land (jsToUint32 s.value) (2 ^ i)
      = ((jsToUint32 s.value).testBit i).toNat * 2 ^ i :=
    Nat.and_two_pow _ i
  rw [hland]
  cases hb : (jsToUint32 s.value).testBit i
  · simp only [Bool.toNat_false, Nat.zero_mul, Nat.cast_zero]
    simp [show jsToInt32 0 = 0 by decide]
  · simp only [Bool.toNat_true, Nat.one_mul]
    have hne : (2 : Nat) ^ i ≠ 0 := by positivity
    have h2 : jsToInt32 ((2 ^ i : Nat) : Int) ≠ 0 := fun hc =>
      hne ((jsToInt32_natCast_eq_zero_iff _ hlt).mp hc)
    push_cast at h2
    simp [h2]

/-- Setting a bit leaves every registry field untouched. -/
theorem setBit_registry (s : BaseFlags) (i : Nat) (b : Bool) :
    (s.setBit i b).nextIndex = s.nextIndex ∧
    (s.setBit i b).flagList = s.flagList ∧
    (s.setBit i b).flagIndices = s.flagIndices := by
  cases b <;> simp [BaseFlags.setBit]

/-- Pattern after `setBit i true`: OR with `2 ^ i`. -/
theorem pat_setBit_true (s : BaseFlags) (i : Nat) (hi : i < 32) :
    jsToUint32 (s.setBit i true).value
      = Nat.lor (jsToUint32 s.value) (2 ^ i) := by
  have hp : jsToUint32 s.value < 2 ^ 32 := by
    have := jsToUint32_lt s.value
    omega
  have hq : (2 : Nat) ^ i < 2 ^ 32 := Nat.pow_lt_pow_right (by norm_num) hi
  simp only [BaseFlags.setBit, if_pos]
  show jsToUint32 (jsOr s.value (jsShl 1 i)) = _
  unfold jsOr
  rw [jsToUint32_jsToInt32, jsToUint32_jsShl_one i hi]
  exact jsToUint32_natCast _ (by
    have : Nat.lor (jsToUint32 s.value) (2 ^ i) < 2 ^ 32 :=
      Nat.bitwise_lt_two_pow hp hq
    omega)

theorem natLor_eq (a b : Nat) : Nat.lor a b = a ||| b := rfl

theorem natLand_eq (a b : Nat) : Nat.land a b = a &&& b := rfl

theorem natXor_eq (a b : Nat) : Nat.xor a b = a ^^^ b := rfl

/-- Pattern after `setBit i false`: AND with the complement of `2 ^ i`. -/
theorem pat_setBit_false (s : BaseFlags) (i : Nat) (hi : i < 32) :
    jsToUint32 (s.setBit i false).value
      = Nat.land (jsToUint32 s.value) (Nat.xor (2 ^ i) 4294967295) := by
  have hq : (2 : Nat) ^ i < 2 ^ 32 := Nat.pow_lt_pow_right (by norm_num) hi
  have hxor : Nat.xor (2 ^ i) 4294967295 < 4294967296 := by
    rw [natXor_eq]
    have : (2 : Nat) ^ i ^^^ 4294967295 < 2 ^ 32 :=
      Nat.xor_lt_two_pow hq (by norm_num)
    omega
  simp only [BaseFlags.setBit, Bool.false_eq_true, if_neg, ite_false]
  show jsToUint32 (jsAnd s.value (jsNot (jsShl 1 i))) = _
  unfold jsAnd jsNot
  rw [jsToUint32_jsToInt32, jsToUint32_jsToInt32, jsToUint32_jsShl_one i hi,
    jsToUint32_natCast _ hxor]
  refine jsToUint32_natCast _ ?_
  have hle : Nat.land (jsToUint32 s.value) (Nat.xor (2 ^ i) 4294967295)
      ≤ jsToUint32 s.value := Nat.and_le_left
  have := jsToUint32_lt s.value
  omega

/-- Effect of `setBit` on `getBit`: bit `i` becomes `b`, every other bit
below 32 is unchanged. -/
theorem getBit_setBit (s : BaseFlags) (i j : Nat) (hi : i < 32) (hj : j < 32)
    (b : Bool) :
    (s.setBit i b).getBit j = if j = i then b else s.getBit j := by
  rw [getBit_eq_testBit _ j hj, getBit_eq_testBit s j hj]
  cases b
  · rw [pat_setBit_false s i hi]
    have h32 : (4294967295 : Nat) = 2 ^ 32 - 1 := by norm_num
    rw [natLand_eq, natXor_eq, h32]
    rw [Nat.testBit_land, Nat.testBit_xor, Nat.testBit_two_pow,
      Nat.testBit_two_pow_sub_one]
    rcases eq_or_ne j i with h | h
    · simp [h, hj]
      exact fun _ => hi
    · simp [h, fun hc : i = j => h hc.symm, hj]
      exact fun _ hc => h hc.symm
  · rw [pat_setBit_true s i hi]
    rw [natLor_eq, Nat.testBit_lor, Nat.testBit_two_pow]
    rcases eq_or_ne j i with h | h
    · simp [h]
    · simp [h, fun hc : i = j => h hc.symm]
      exact fun hc => absurd hc.symm h

/-! ## Registry well-formedness -/

/-- The association list that maps the j-th element of `l` to index `i + j`;
this is the shape `addFlag` gives to `flagIndices`. -/
def indexMapOf : List String → Nat → List (String × Nat)
  | [], _ => []
  | n :: rest, i => (n, i) :: indexMapOf rest (i + 1)

/-- Registry invariant established by construction: `nextIndex` tracks the
length of `flagList`, `flagIndices` maps `flagList[j]` to `j`, the names
are distinct and at most `cap` of them are registered. -/
def WF (cap : Nat) (s : BaseFlags) : Prop :=
  s.nextIndex = s.flagList.length ∧
  s.flagIndices = indexMapOf s.flagList 0 ∧
  s.flagList.Nodup ∧
  s.flagList.length ≤ cap

instance (cap : Nat) (s : BaseFlags) : Decidable (WF cap s) := by
  unfold WF
  infer_instance

theorem indexMapOf_append (l : List String) (n : String) :
    ∀ i, indexMapOf (l ++ [n]) i = indexMapOf l i ++ [(n, i + l.length)] := by
  induction l with
  | nil => intro i; simp [indexMapOf]
  | cons a t ih =>
    intro i
    simp only [List.cons_append, indexMapOf, List.append_eq, List.length_cons]
    rw [ih (i + 1)]
    rw [show i + 1 + t.length = i + (t.length + 1) from by omega]

theorem mapGet_cons (n : String) (v : Nat) (t : List (String × Nat)) (k : String) :
    mapGet ((n, v) :: t) k = if n = k then Option.some v else mapGet t k := by
  unfold mapGet
  rw [List.find?_cons]
  by_cases h : n = k
  · simp [h]
  · have hb : (n == k) = false := beq_eq_false_iff_ne.mpr h
    rw [hb, if_neg h]

theorem mapGet_indexMapOf_isSome (l : List String) (k : String) :
    ∀ i, ((mapGet (indexMapOf l i) k).isSome = true ↔ k ∈ l) := by
  induction l with
  | nil => intro i; simp [indexMapOf, mapGet]
  | cons a t ih =>
    intro i
    rw [indexMapOf, mapGet_cons]
    by_cases h : a = k
    · simp [h]
    · simp only [h, if_false, ih (i + 1), List.mem_cons]
      constructor
      · exact Or.inr
      · rintro (hc | hc)
        · exact absurd hc.symm h
        · exact hc

theorem mapGet_indexMapOf_get? (l : List String) (k : String) (m : Nat) :
    ∀ i, mapGet (indexMapOf l i) k = Option.some m →
      i ≤ m ∧ l.get? (m - i) = Option.some k := by
  induction l with
  | nil => intro i h; simp [indexMapOf, mapGet] at h
  | cons a t ih =>
    intro i h
    rw [indexMapOf, mapGet_cons] at h
    by_cases hak : a = k
    · rw [if_pos hak] at h
      have hm : m = i := by
        have := Option.some.inj h
        omega
      subst hm
      simp [Nat.sub_self, hak]
    · rw [if_neg hak] at h
      obtain ⟨h1, h2⟩ := ih (i + 1) h
      refine ⟨by omega, ?_⟩
      rw [show m - i = (m - (i + 1)) + 1 from by omega]
      simpa using h2

theorem mapGet_indexMapOf_of_get? (l : List String) (hl : l.Nodup) (j : Nat)
    (k : String) (hj : l.get? j = Option.some k) :
    ∀ i, mapGet (indexMapOf l i) k = Option.some (i + j) := by
  induction l generalizing j with
  | nil => simp at hj
  | cons a t ih =>
    intro i
    cases j with
    | zero =>
      have : a = k := by simpa using hj
      rw [indexMapOf, mapGet_cons, if_pos this, Nat.add_zero]
    | succ j =>
      have hjt : t.get? j = Option.some k := by simpa using hj
      have hkt : k ∈ t := List.get?_mem hjt
      have hak : a ≠ k := fun hc => (List.nodup_cons.mp hl).1 (hc ▸ hkt)
      rw [indexMapOf, mapGet_cons, if_neg hak,
        ih (List.nodup_cons.mp hl).2 j hjt (i + 1)]
      rw [show i + 1 + j = i + (j + 1) from by omega]

theorem hasFlag_iff_mem (cap : Nat) (s : BaseFlags) (hWF : WF cap s) (k : String) :
    (s.hasFlag k = true ↔ k ∈ s.flagList) := by
  unfold BaseFlags.hasFlag
  rw [hWF.2.1]
  exact mapGet_indexMapOf_isSome s.flagList k 0

theorem wf_index_lt (cap : Nat) (s : BaseFlags) (hWF : WF cap s) (k : String)
    (m : Nat) (h : mapGet s.flagIndices k = Option.some m) :
    m < s.flagList.length := by
  rw [hWF.2.1] at h
  obtain ⟨-, h2⟩ := mapGet_indexMapOf_get? s.flagList k m 0 h
  rw [Nat.sub_zero] at h2
  by_contra hge
  push_neg at hge
  rw [List.get?_eq_none.mpr hge] at h2
  simp at h2

theorem wf_index_inj (cap : Nat) (s : BaseFlags) (hWF : WF cap s)
    (k1 k2 : String) (m : Nat) (h1 : mapGet s.flagIndices k1 = Option.some m)
    (h2 : mapGet s.flagIndices k2 = Option.some m) : k1 = k2 := by
  rw [hWF.2.1] at h1 h2
  obtain ⟨-, g1⟩ := mapGet_indexMapOf_get? s.flagList k1 m 0 h1
  obtain ⟨-, g2⟩ := mapGet_indexMapOf_get? s.flagList k2 m 0 h2
  exact Option.some.inj (g1.symm.trans g2)

theorem wf_mapGet_get (cap : Nat) (s : BaseFlags) (hWF : WF cap s) (j : Nat)
    (hj : j < s.flagList.length) :
    mapGet s.flagIndices (s.flagList.get ⟨j, hj⟩) = Option.some j := by
  rw [hWF.2.1]
  have hg : s.flagList.get? j = Option.some (s.flagList.get ⟨j, hj⟩) :=
    List.get?_eq_get hj
  simpa using mapGet_indexMapOf_of_get? s.flagList hWF.2.2.1 j _ hg 0

theorem getFlag_eq_of_mapGet (s : BaseFlags) (k : String) (i : Nat)
    (h : mapGet s.flagIndices k = Option.some i) :
    s.getFlag k = .ok (s.getBit i) := by
  unfold BaseFlags.getFlag
  rw [h]

theorem getFlag_eq_error (s : BaseFlags) (k : String)
    (h : mapGet s.flagIndices k = Option.none) :
    s.getFlag k = .error (.unknownFlag k) := by
  unfold BaseFlags.getFlag
  rw [h]

theorem setFlag_eq_of_mapGet (s : BaseFlags) (k : String) (v : Bool) (i : Nat)
    (h : mapGet s.flagIndices k = Option.some i) :
    s.setFlag k v = .ok (s.setBit i v) := by
  unfold BaseFlags.setFlag
  rw [h]

theorem toggleFlag_eq_of_mapGet (s : BaseFlags) (k : String) (i : Nat)
    (h : mapGet s.flagIndices k = Option.some i) :
    s.toggleFlag k = .ok (s.setBit i (!(s.getBit i))) := by
  unfold BaseFlags.toggleFlag
  rw [h]

theorem WF_setBit (cap : Nat) (s : BaseFlags) (hWF : WF cap s) (i : Nat) (b : Bool) :
    WF cap (s.setBit i b) := by
  obtain ⟨r1, r2, r3⟩ := setBit_registry s i b
  exact ⟨by rw [r1, r2]; exact hWF.1, by rw [r3, r2]; exact hWF.2.1,
    by rw [r2]; exact hWF.2.2.1, by rw [r2]; exact hWF.2.2.2⟩

theorem getFlag_setBit_self (cap : Nat) (s : BaseFlags) (hWF : WF cap s)
    (hcap : cap ≤ 32) (k : String) (i : Nat) (b : Bool)
    (h : mapGet s.flagIndices k = Option.some i) :
    (s.setBit i b).getFlag k = .ok b := by
  have hi : i < 32 :=
    lt_of_lt_of_le (wf_index_lt cap s hWF k i h) (le_trans hWF.2.2.2 hcap)
  have h2 : mapGet (s.setBit i b).flagIndices k = Option.some i := by
    rw [(setBit_registry s i b).2.2]
    exact h
  rw [getFlag_eq_of_mapGet _ _ _ h2, getBit_setBit s i i hi hi b, if_pos rfl]

theorem getFlag_setBit_other (cap : Nat) (s : BaseFlags) (hWF : WF cap s)
    (hcap : cap ≤ 32) (k m : String) (i : Nat) (b : Bool)
    (hk : mapGet s.flagIndices k = Option.some i) (hne : m ≠ k) :
    (s.setBit i b).getFlag m = s.getFlag m := by
  have hlen : s.flagList.length ≤ 32 := le_trans hWF.2.2.2 hcap
  have hi : i < 32 := lt_of_lt_of_le (wf_index_lt cap s hWF k i hk) hlen
  have hreg : (s.setBit i b).flagIndices = s.flagIndices :=
    (setBit_registry s i b).2.2
  cases hm : mapGet s.flagIndices m with
  | none =>
    have hm2 : mapGet (s.setBit i b).flagIndices m = Option.none := by
      rw [hreg]
      exact hm
    rw [getFlag_eq_error _ _ hm2, getFlag_eq_error _ _ hm]
  | some j =>
    have hj : j < 32 := lt_of_lt_of_le (wf_index_lt cap s hWF m j hm) hlen
    have hji : j ≠ i := fun hc =>
      hne (wf_index_inj cap s hWF m k i (hc ▸ hm) hk)
    have hm2 : mapGet (s.setBit i b).flagIndices m = Option.some j := by
      rw [hreg]
      exact hm
    rw [getFlag_eq_of_mapGet _ _ _ hm2, getFlag_eq_of_mapGet _ _ _ hm,
      getBit_setBit s i j hi hj b, if_neg hji]

/-! ## Constructor lemmas -/

theorem except_bind_ok {α β : Type} (a : α) (g : α → Except FlagError β) :
    (Except.ok a >>= g) = g a := rfl

theorem except_bind_err {α β : Type} (e : FlagError) (g : α → Except FlagError β) :
    ((Except.error e : Except FlagError α) >>= g) = Except.error e := rfl

theorem addFlag_ok (cap : Nat) (s : BaseFlags) (n : String)
    (h1 : s.nextIndex < cap) (h2 : n.trim ≠ "") (h3 : n ∉ s.flagList) :
    s.addFlag cap n = .ok { s with
      nextIndex := s.nextIndex + 1,
      flagList := s.flagList ++ [n],
      flagIndices := s.flagIndices ++ [(n, s.nextIndex)] } := by
  unfold BaseFlags.addFlag
  rw [if_neg (by omega), if_neg h2, if_neg (by simpa using h3)]

theorem addFlag_err_dup (cap : Nat) (s : BaseFlags) (n : String)
    (h1 : s.nextIndex < cap) (h2 : n.trim ≠ "") (h3 : n ∈ s.flagList) :
    s.addFlag cap n = .error (.duplicateName n) := by
  unfold BaseFlags.addFlag
  rw [if_neg (by omega), if_neg h2, if_pos (by simpa using h3)]

theorem addFlag_err_blank (cap : Nat) (s : BaseFlags) (n : String)
    (h1 : s.nextIndex < cap) (h2 : n.trim = "") :
    s.addFlag cap n = .error (.invalidArgument "Flag name must be a non-empty string") := by
  unfold BaseFlags.addFlag
  rw [if_neg (by omega), if_pos h2]

theorem addFlag_ok_inv (cap : Nat) (s : BaseFlags) (n : String) (s' : BaseFlags)
    (h : s.addFlag cap n = .ok s') :
    s.nextIndex < cap ∧ n.trim ≠ "" ∧ n ∉ s.flagList ∧
      s' = { s with
        nextIndex := s.nextIndex + 1,
        flagList := s.flagList ++ [n],
        flagIndices := s.flagIndices ++ [(n, s.nextIndex)] } := by
  unfold BaseFlags.addFlag at h
  by_cases h1 : s.nextIndex ≥ cap
  · rw [if_pos h1] at h
    simp at h
  · rw [if_neg h1] at h
    by_cases h2 : n.trim = ""
    · rw [if_pos h2] at h
      simp at h
    · rw [if_neg h2] at h
      by_cases h3 : s.flagList.contains n
      · rw [if_pos h3] at h
        simp at h
      · rw [if_neg h3] at h
        exact ⟨by omega, h2, by simpa using h3, (Except.ok.inj h).symm⟩

theorem foldl_addFlag_ok (cap : Nat) :
    ∀ (names : List String) (s : BaseFlags),
      s.nextIndex = s.flagList.length →
      s.flagList.length + names.length ≤ cap →
      (s.flagList ++ names).Nodup →
      (∀ n ∈ names, n.trim ≠ "") →
      names.foldlM (fun t n => t.addFlag cap n) s =
        .ok { value := s.value, nextIndex := s.flagList.length + names.length,
              flagList := s.flagList ++ names,
              flagIndices := s.flagIndices ++ indexMapOf names s.flagList.length } := by
  intro names
  induction names with
  | nil =>
    intro s h1 h2 h3 h4
    cases s with
    | mk v ni fl fi =>
      simp only [List.foldlM_nil, indexMapOf, List.append_nil]
      simp_all
      rfl
  | cons n rest ih =>
    intro s h1 h2 h3 h4
    rw [List.length_cons] at h2
    have hmem : n ∉ s.flagList := by
      rw [List.nodup_append] at h3
      intro hc
      exact h3.2.2 hc (by simp)
    rw [List.foldlM_cons,
      addFlag_ok cap s n (by omega) (h4 n (by simp)) hmem, except_bind_ok]
    rw [ih _ (by simp [h1]) (by simp; omega)
      (by rw [List.append_cons] at h3; simpa using h3)
      (fun m hm => h4 m (by simp [hm]))]
    simp only [List.length_append, List.length_singleton, List.length_cons,
      List.length_nil, Nat.zero_add, List.append_assoc, List.singleton_append,
      indexMapOf]
    rw [h1]
    rw [show s.flagList.length + 1 + rest.length
        = s.flagList.length + (rest.length + 1) from by omega]

theorem foldl_addFlag_dup (cap : Nat) :
    ∀ (names : List String) (s : BaseFlags),
      s.nextIndex = s.flagList.length →
      s.flagList.length + names.length ≤ cap →
      (∀ n ∈ names, n.trim ≠ "") →
      s.flagList.Nodup →
      ¬(s.flagList ++ names).Nodup →
      ∃ m, names.foldlM (fun t n => t.addFlag cap n) s =
        .error (.duplicateName m) := by
  intro names
  induction names with
  | nil =>
    intro s h1 h2 h3 h4 h5
    exact absurd (by simpa using h4) h5
  | cons n rest ih =>
    intro s h1 h2 h3 h4 h5
    rw [List.length_cons] at h2
    by_cases hmem : n ∈ s.flagList
    · refine ⟨n, ?_⟩
      rw [List.foldlM_cons,
        addFlag_err_dup cap s n (by omega) (h3 n (by simp)) hmem, except_bind_err]
    · rw [List.foldlM_cons,
        addFlag_ok cap s n (by omega) (h3 n (by simp)) hmem, except_bind_ok]
      have hnd1 : (s.flagList ++ [n]).Nodup := by
        rw [List.nodup_append]
        refine ⟨h4, List.nodup_singleton n, ?_⟩
        intro a ha hb
        rw [List.mem_singleton] at hb
        exact hmem (hb ▸ ha)
      refine ih _ (by simp [h1]) (by simp; omega)
        (fun m hm => h3 m (by simp [hm])) (by simpa using hnd1) ?_
      intro hc
      rw [List.append_cons] at h5
      exact h5 (by simpa using hc)

theorem foldl_addFlag_blank (cap : Nat) :
    ∀ (names : List String) (s : BaseFlags),
      s.nextIndex = s.flagList.length →
      s.flagList.length + names.length ≤ cap →
      (s.flagList ++ names).Nodup →
      (∃ n ∈ names, n.trim = "") →
      names.foldlM (fun t n => t.addFlag cap n) s =
        .error (.invalidArgument "Flag name must be a non-empty string") := by
  intro names
  induction names with
  | nil =>
    intro s h1 h2 h3 h4
    simp at h4
  | cons n rest ih =>
    intro s h1 h2 h3 h4
    rw [List.length_cons] at h2
    by_cases hb : n.trim = ""
    · rw [List.foldlM_cons, addFlag_err_blank cap s n (by omega) hb,
        except_bind_err]
    · obtain ⟨m, hm, hmt⟩ := h4
      have hmr : m ∈ rest := by
        rcases List.mem_cons.mp hm with rfl | hm'
        · exact absurd hmt hb
        · exact hm'
      have hmem : n ∉ s.flagList := by
        rw [List.nodup_append] at h3
        intro hc
        exact h3.2.2 hc (by simp)
      rw [List.foldlM_cons, addFlag_ok cap s n (by omega) hb hmem,
        except_bind_ok]
      refine ih _ (by simp [h1]) (by simp; omega) ?_ ⟨m, hmr, hmt⟩
      rw [List.append_cons] at h3
      simpa using h3

theorem foldl_addFlag_ok_inv (cap : Nat) :
    ∀ (names : List String) (s s' : BaseFlags),
      s.nextIndex = s.flagList.length →
      s.flagList.Nodup →
      names.foldlM (fun t n => t.addFlag cap n) s = .ok s' →
      (∀ n ∈ names, n.trim ≠ "") ∧ (s.flagList ++ names).Nodup ∧
        (names ≠ [] → s.flagList.length + names.length ≤ cap) := by
  intro names
  induction names with
  | nil =>
    intro s s' h1 h2 h3
    exact ⟨by simp, by simpa using h2, fun hc => absurd rfl hc⟩
  | cons n rest ih =>
    intro s s' h1 h2 h3
    rw [List.foldlM_cons] at h3
    cases hstep : s.addFlag cap n with
    | error e =>
      rw [hstep, except_bind_err] at h3
      simp at h3
    | ok s1 =>
      rw [hstep, except_bind_ok] at h3
      obtain ⟨hlt, htrim, hnmem, hs1⟩ := addFlag_ok_inv cap s n s1 hstep
      subst hs1
      have hnd1 : (s.flagList ++ [n]).Nodup := by
        rw [List.nodup_append]
        refine ⟨h2, List.nodup_singleton n, ?_⟩
        intro a ha hb
        rw [List.mem_singleton] at hb
        exact hnmem (hb ▸ ha)
      obtain ⟨ih1, ih2, ih3⟩ := ih _ s' (by simp [h1]) (by simpa using hnd1) h3
      refine ⟨?_, ?_, ?_⟩
      · intro m hm
        rcases List.mem_cons.mp hm with rfl | hm'
        · exact htrim
        · exact ih1 m hm'
      · rw [List.append_cons]
        simpa using ih2
      · intro hne2
        rw [List.length_cons]
        by_cases hr : rest = []
        · subst hr
          rw [h1] at hlt
          simp
          omega
        · have := ih3 hr
          simp [List.length_append] at this
          omega

theorem mkBaseFlags_ok (cap : Nat) (names : List String) (h1 : names ≠ [])
    (h2 : names.length ≤ cap) (h3 : names.Nodup)
    (h4 : ∀ n ∈ names, n.trim ≠ "") :
    mkBaseFlags cap names =
      .ok { value := 0, nextIndex := names.length, flagList := names,
            flagIndices := indexMapOf names 0 } := by
  unfold mkBaseFlags
  rw [if_neg (by simpa using h1)]
  have h := foldl_addFlag_ok cap names BaseFlags.init rfl
    (by simpa [BaseFlags.init] using h2) (by simpa [BaseFlags.init] using h3) h4
  simpa [BaseFlags.init] using h

theorem mkBaseFlags_empty (cap : Nat) :
    mkBaseFlags cap [] =
      .error (.invalidArgument "At least one flag name must be provided") := by
  unfold mkBaseFlags
  simp

theorem mkBaseFlags_dup (cap : Nat) (names : List String)
    (h2 : names.length ≤ cap) (h4 : ∀ n ∈ names, n.trim ≠ "")
    (h5 : ¬names.Nodup) :
    ∃ m, mkBaseFlags cap names = .error (.duplicateName m) := by
  unfold mkBaseFlags
  have hne : names ≠ [] := by
    intro hc
    subst hc
    exact h5 (by simp)
  rw [if_neg (by simpa using hne)]
  exact foldl_addFlag_dup cap names BaseFlags.init rfl
    (by simpa [BaseFlags.init] using h2) h4 (by simp [BaseFlags.init])
    (by simpa [BaseFlags.init] using h5)

theorem mkBaseFlags_blank (cap : Nat) (names : List String)
    (h2 : names.length ≤ cap) (h3 : names.Nodup)
    (h5 : ∃ n ∈ names, n.trim = "") :
    mkBaseFlags cap names =
      .error (.invalidArgument "Flag name must be a non-empty string") := by
  unfold mkBaseFlags
  have hne : names ≠ [] := by
    intro hc
    subst hc
    simp at h5
  rw [if_neg (by simpa using hne)]
  exact foldl_addFlag_blank cap names BaseFlags.init rfl
    (by simpa [BaseFlags.init] using h2) (by simpa [BaseFlags.init] using h3) h5

theorem mkBaseFlags_ok_inv (cap : Nat) (names : List String) (s' : BaseFlags)
    (h : mkBaseFlags cap names = .ok s') :
    names ≠ [] ∧ names.length ≤ cap ∧ names.Nodup ∧
      ∀ n ∈ names, n.trim ≠ "" := by
  unfold mkBaseFlags at h
  by_cases h0 : names.length = 0
  · rw [if_pos h0] at h
    simp at h
  · rw [if_neg h0] at h
    obtain ⟨c1, c2, c3⟩ := foldl_addFlag_ok_inv cap names BaseFlags.init s' rfl
      (by simp [BaseFlags.init]) h
    have hne : names ≠ [] := by
      intro hc
      subst hc
      simp at h0
    refine ⟨hne, ?_, by simpa [BaseFlags.init] using c2, c1⟩
    have := c3 hne
    simpa [BaseFlags.init] using this

/-! ## Bulk operation lemmas -/

theorem hasFlag_setBit (s : BaseFlags) (i : Nat) (b : Bool) (k : String) :
    (s.setBit i b).hasFlag k = s.hasFlag k := by
  unfold BaseFlags.hasFlag
  rw [(setBit_registry s i b).2.2]

theorem setFlags_cons (s : BaseFlags) (p : String × Bool)
    (rest : List (String × Bool)) :
    s.setFlags (p :: rest) =
      (if s.hasFlag p.1 then s.setFlag p.1 p.2 else .ok s) >>= fun s1 =>
        s1.setFlags rest := by
  unfold BaseFlags.setFlags
  rw [List.foldlM_cons]

theorem toggleFlags_cons (s : BaseFlags) (n : String) (rest : List String) :
    s.toggleFlags (n :: rest) =
      (if s.hasFlag n then s.toggleFlag n else .ok s) >>= fun s1 =>
        s1.toggleFlags rest := by
  unfold BaseFlags.toggleFlags
  rw [List.foldlM_cons]

theorem setFlags_spec (cap : Nat) (hcap : cap ≤ 32) :
    ∀ (m : List (String × Bool)) (s : BaseFlags), WF cap s →
      (m.map Prod.fst).Nodup →
      ∃ s', s.setFlags m = .ok s' ∧
        s'.nextIndex = s.nextIndex ∧ s'.flagList = s.flagList ∧
        s'.flagIndices = s.flagIndices ∧
        (∀ n v, (n, v) ∈ m → s.hasFlag n = true → s'.getFlag n = .ok v) ∧
        (∀ n, n ∉ m.map Prod.fst → s'.getFlag n = s.getFlag n) := by
  intro m
  induction m with
  | nil =>
    intro s hWF hnd
    exact ⟨s, rfl, rfl, rfl, rfl, by simp, fun n _ => rfl⟩
  | cons p rest ih =>
    intro s hWF hnd
    obtain ⟨n0, v0⟩ := p
    have hnd2 : (n0 :: rest.map Prod.fst).Nodup := by simpa using hnd
    have hkey : n0 ∉ rest.map Prod.fst := (List.nodup_cons.mp hnd2).1
    have hndr : (rest.map Prod.fst).Nodup := (List.nodup_cons.mp hnd2).2
    by_cases hh : s.hasFlag n0 = true
    · obtain ⟨i, hi⟩ := Option.isSome_iff_exists.mp hh
      obtain ⟨s', hfold, hni, hfl, hfi, hset, hframe⟩ :=
        ih (s.setBit i v0) (WF_setBit cap s hWF i v0) hndr
      have hreg := setBit_registry s i v0
      refine ⟨s', ?_, hni.trans hreg.1, hfl.trans hreg.2.1,
        hfi.trans hreg.2.2, ?_, ?_⟩
      · rw [setFlags_cons, if_pos hh, setFlag_eq_of_mapGet s n0 v0 i hi,
          except_bind_ok]
        exact hfold
      · intro n v hmem hhas
        rcases List.mem_cons.mp hmem with heq | hmem2
        · obtain ⟨rfl, rfl⟩ := Prod.mk.injEq .. |>.mp heq
          rw [hframe n hkey]
          exact getFlag_setBit_self cap s hWF hcap n i v hi
        · exact hset n v hmem2 (by rw [hasFlag_setBit]; exact hhas)
      · intro n hnot
        have hne : n ≠ n0 := fun hc => hnot (by simp [hc])
        rw [hframe n (fun hc => hnot (by simp [hc]))]
        exact getFlag_setBit_other cap s hWF hcap n0 n i v0 hi hne
    · obtain ⟨s', hfold, hni, hfl, hfi, hset, hframe⟩ := ih s hWF hndr
      refine ⟨s', ?_, hni, hfl, hfi, ?_, ?_⟩
      · rw [setFlags_cons, if_neg hh, except_bind_ok]
        exact hfold
      · intro n v hmem hhas
        rcases List.mem_cons.mp hmem with heq | hmem2
        · obtain ⟨rfl, rfl⟩ := Prod.mk.injEq .. |>.mp heq
          exact absurd hhas hh
        · exact hset n v hmem2 hhas
      · intro n hnot
        exact hframe n (fun hc => hnot (by simp [hc]))

theorem toggleFlags_ok : ∀ (names : List String) (s : BaseFlags),
    ∃ s', s.toggleFlags names = .ok s' ∧
      s'.nextIndex = s.nextIndex ∧ s'.flagList = s.flagList ∧
      s'.flagIndices = s.flagIndices := by
  intro names
  induction names with
  | nil => exact fun s => ⟨s, rfl, rfl, rfl, rfl⟩
  | cons n rest ih =>
    intro s
    by_cases hh : s.hasFlag n = true
    · obtain ⟨i, hi⟩ := Option.isSome_iff_exists.mp hh
      obtain ⟨s', hfold, hni, hfl, hfi⟩ := ih (s.setBit i (!(s.getBit i)))
      have hreg := setBit_registry s i (!(s.getBit i))
      refine ⟨s', ?_, hni.trans hreg.1, hfl.trans hreg.2.1, hfi.trans hreg.2.2⟩
      rw [toggleFlags_cons, if_pos hh, toggleFlag_eq_of_mapGet s n i hi,
        except_bind_ok]
      exact hfold
    · obtain ⟨s', hfold, hni, hfl, hfi⟩ := ih s
      refine ⟨s', ?_, hni, hfl, hfi⟩
      rw [toggleFlags_cons, if_neg hh, except_bind_ok]
      exact hfold

theorem hasFlag_ext (s t : BaseFlags) (h : t.flagIndices = s.flagIndices) :
    ∀ k, t.hasFlag k = s.hasFlag k := by
  intro k
  unfold BaseFlags.hasFlag
  rw [h]

theorem toggleFlags_filter : ∀ (names : List String) (s : BaseFlags),
    s.toggleFlags (names.filter (fun n => s.hasFlag n)) =
      s.toggleFlags names := by
  intro names
  induction names with
  | nil => intro s; rfl
  | cons n rest ih =>
    intro s
    by_cases hh : s.hasFlag n = true
    · rw [List.filter_cons_of_pos hh, toggleFlags_cons, toggleFlags_cons,
        if_pos hh]
      obtain ⟨i, hi⟩ := Option.isSome_iff_exists.mp hh
      rw [toggleFlag_eq_of_mapGet s n i hi, except_bind_ok, except_bind_ok]
      have hsame : rest.filter (fun m => s.hasFlag m) =
          rest.filter (fun m => (s.setBit i (!(s.getBit i))).hasFlag m) :=
        List.filter_congr (fun m _ => (hasFlag_setBit s i (!(s.getBit i)) m).symm)
      rw [hsame, ih]
    · rw [List.filter_cons_of_neg (by simpa using hh), toggleFlags_cons,
        if_neg hh, except_bind_ok, ih]

theorem toggleFlags_single (s : BaseFlags) (n : String)
    (hh : s.hasFlag n = true) : s.toggleFlags [n] = s.toggleFlag n := by
  rw [toggleFlags_cons, if_pos hh]
  obtain ⟨i, hi⟩ := Option.isSome_iff_exists.mp hh
  rw [toggleFlag_eq_of_mapGet s n i hi, except_bind_ok]
  rfl

/-! ## Query and serialization lemmas -/

theorem lookup_map_self (l : List String) (f : String → Bool) (n : String) :
    (l.map (fun a => (a, f a))).lookup n =
      if n ∈ l then Option.some (f n) else Option.none := by
  induction l with
  | nil => simp
  | cons a t ih =>
    rw [List.map_cons]
    by_cases h : a = n
    · subst h
      simp [List.lookup]
    · have hb : (n == a) = false := beq_eq_false_iff_ne.mpr fun hc => h hc.symm
      have hstep : ((a, f a) :: t.map (fun x => (x, f x))).lookup n
          = (t.map (fun x => (x, f x))).lookup n := by
        simp [List.lookup, hb]
      rw [hstep, ih]
      by_cases hm : n ∈ t
      · rw [if_pos hm, if_pos (by simp [hm])]
      · rw [if_neg hm, if_neg ?_]
        simp only [List.mem_cons]
        rintro (hc | hc)
        · exact h hc.symm
        · exact hm hc

theorem toObject_lookup (s : BaseFlags) (n : String) :
    s.toObject.lookup n =
      if n ∈ s.flagList then
        Option.some (match s.getFlag n with
          | .ok b => b
          | .error _ => false)
      else Option.none := by
  unfold BaseFlags.toObject
  exact lookup_map_self s.flagList _ n

theorem toObject_keys (s : BaseFlags) : s.toObject.map Prod.fst = s.flagList := by
  unfold BaseFlags.toObject
  rw [List.map_map]
  have hid : (Prod.fst ∘ fun name =>
      (name, match s.getFlag name with
             | .ok b => b
             | .error _ => false)) = fun name : String => name := rfl
  rw [hid]
  exact List.map_id s.flagList

theorem fromValue_ok (M : Int) (s : BaseFlags) (v : Rat) (h1 : v.den = 1)
    (h2 : 0 ≤ v) (h3 : v ≤ (M : Rat)) :
    s.fromValue M v = .ok { s with value := v.num } := by
  unfold BaseFlags.fromValue
  rw [if_neg]
  push_neg
  exact ⟨h1, h2, h3⟩

theorem fromValue_err (M : Int) (s : BaseFlags) (v : Rat)
    (h : ¬(v.den = 1) ∨ v < 0 ∨ v > (M : Rat)) :
    s.fromValue M v =
      .error (.invalidArgument ("Value must be integer 0-" ++ toString M)) := by
  unfold BaseFlags.fromValue
  rw [if_pos h]

theorem fromValue_ok_inv (M : Int) (s : BaseFlags) (v : Rat) (s' : BaseFlags)
    (h : s.fromValue M v = .ok s') :
    v.den = 1 ∧ 0 ≤ v ∧ v ≤ (M : Rat) ∧ s' = { s with value := v.num } := by
  unfold BaseFlags.fromValue at h
  by_cases hc : ¬(v.den = 1) ∨ v < 0 ∨ v > (M : Rat)
  · rw [if_pos hc] at h
    simp at h
  · rw [if_neg hc] at h
    push_neg at hc
    exact ⟨hc.1, hc.2.1, hc.2.2, (Except.ok.inj h).symm⟩

theorem any_iff (s : BaseFlags) : s.any = true ↔ s.toValue ≠ 0 := by
  unfold BaseFlags.any BaseFlags.toValue
  simp

theorem none_eq_not_any (s : BaseFlags) : s.none = !s.any := by
  unfold BaseFlags.none BaseFlags.any
  simp [decide_not]

theorem count_eq (cap : Nat) (s : BaseFlags) (hWF : WF cap s) (hcap : cap ≤ 32) :
    s.count = ((List.range s.flagList.length).filter
      (fun i => (jsToUint32 s.value).testBit i)).length := by
  unfold BaseFlags.count
  rw [hWF.1, List.countP_eq_length_filter]
  congr 1
  apply List.filter_congr
  intro i hi
  have hlt : i < 32 :=
    lt_of_lt_of_le (lt_of_lt_of_le (List.mem_range.mp hi) hWF.2.2.2) hcap
  exact getBit_eq_testBit s i hlt

theorem jsKeyOrder_perm (l : List (String × Bool)) : (jsKeyOrder l).Perm l := by
  unfold jsKeyOrder
  have h1 := List.mergeSort_perm (l.filter (fun p => isArrayIndexKey p.1))
    (fun a b => keyNum a.1 ≤ keyNum b.1)
  exact (h1.append_right _).trans (List.filter_append_perm _ l)

theorem mkBaseFlags_ok_state (cap : Nat) (names : List String) (s' : BaseFlags)
    (h : mkBaseFlags cap names = .ok s') :
    s' = { value := 0, nextIndex := names.length, flagList := names,
           flagIndices := indexMapOf names 0 } := by
  obtain ⟨h1, h2, h3, h4⟩ := mkBaseFlags_ok_inv cap names s' h
  rw [mkBaseFlags_ok cap names h1 h2 h3 h4] at h
  exact (Except.ok.inj h).symm

theorem WF_of_mk (cap : Nat) (names : List String) (s' : BaseFlags)
    (h : mkBaseFlags cap names = .ok s') : WF cap s' := by
  obtain ⟨h1, h2, h3, h4⟩ := mkBaseFlags_ok_inv cap names s' h
  rw [mkBaseFlags_ok_state cap names s' h]
  exact ⟨rfl, rfl, h3, h2⟩

theorem mkByteFlags_eq (names : List String) (h : names.length ≤ 8) :
    mkByteFlags names = mkBaseFlags 8 names := by
  unfold mkByteFlags
  rw [if_neg (by omega)]

theorem mkShortFlags_eq (names : List String) (h : names.length ≤ 16) :
    mkShortFlags names = mkBaseFlags 16 names := by
  unfold mkShortFlags
  rw [if_neg (by omega)]

theorem mkLongFlags_eq (names : List String) (h : names.length ≤ 32) :
    mkLongFlags names = mkBaseFlags 32 names := by
  unfold mkLongFlags
  rw [if_neg (by omega)]

theorem mkByteFlags_too_long (names : List String) (h : names.length > 8) :
    mkByteFlags names = .error (.invalidArgument "Cannot have more than 8 flags") := by
  unfold mkByteFlags
  rw [if_pos h]

theorem mkShortFlags_too_long (names : List String) (h : names.length > 16) :
    mkShortFlags names = .error (.invalidArgument "Cannot have more than 16 flags") := by
  unfold mkShortFlags
  rw [if_pos h]

theorem mkLongFlags_too_long (names : List String) (h : names.length > 32) :
    mkLongFlags names = .error (.invalidArgument "Cannot have more than 32 flags") := by
  unfold mkLongFlags
  rw [if_pos h]

theorem mkByteFlags_ok_inv (names : List String) (s' : BaseFlags)
    (h : mkByteFlags names = .ok s') : mkBaseFlags 8 names = .ok s' := by
  unfold mkByteFlags at h
  by_cases hc : names.length > 8
  · rw [if_pos hc] at h
    simp at h
  · rwa [if_neg hc] at h

theorem mkShortFlags_ok_inv (names : List String) (s' : BaseFlags)
    (h : mkShortFlags names = .ok s') : mkBaseFlags 16 names = .ok s' := by
  unfold mkShortFlags at h
  by_cases hc : names.length > 16
  · rw [if_pos hc] at h
    simp at h
  · rwa [if_neg hc] at h

theorem mkLongFlags_ok_inv (names : List String) (s' : BaseFlags)
    (h : mkLongFlags names = .ok s') : mkBaseFlags 32 names = .ok s' := by
  unfold mkLongFlags at h
  by_cases hc : names.length > 32
  · rw [if_pos hc] at h
    simp at h
  · rwa [if_neg hc] at h

/-! ## Evaluating `String.trim` on concrete literals -/

theorem takeWhileAux_stop (s : String) (stopPos : String.Pos) (p : Char → Bool)
    (i : String.Pos) (h : p (s.get i) = false) :
    Substring.takeWhileAux s stopPos p i = i := by
  unfold Substring.takeWhileAux
  split
  · rw [if_neg (by rw [h]; exact Bool.false_ne_true)]
  · rfl

theorem takeRightWhileAux_stop (s : String) (begPos : String.Pos)
    (p : Char → Bool) (i : String.Pos) (h : p (s.get (s.prev i)) = false) :
    Substring.takeRightWhileAux s begPos p i = i := by
  unfold Substring.takeRightWhileAux
  split
  · simp [h]
  · rfl

/-- A string whose first and last characters are not whitespace is its own
trim; this lets concrete names be pushed through the construction checks. -/
theorem trim_eq_self (s : String) (h1 : Char.isWhitespace (s.get 0) = false)
    (h2 : Char.isWhitespace (s.get (s.prev s.endPos)) = false) :
    s.trim = s := by
  show (Substring.toString ⟨s, Substring.takeWhileAux s s.endPos Char.isWhitespace 0,
    Substring.takeRightWhileAux s (Substring.takeWhileAux s s.endPos Char.isWhitespace 0)
      Char.isWhitespace s.endPos⟩) = s
  rw [takeWhileAux_stop s s.endPos Char.isWhitespace 0 h1]
  rw [takeRightWhileAux_stop s 0 Char.isWhitespace s.endPos h2]
  exact String.extract_zero_endPos s

/-! ## Remaining small lemmas -/

theorem getFlag_match_val (s : BaseFlags) (n : String) (i : Nat)
    (h : mapGet s.flagIndices n = Option.some i) :
    (match s.getFlag n with
     | .ok b => b
     | .error _ => false) = s.getBit i := by
  rw [getFlag_eq_of_mapGet s n i h]

theorem setFlag_ok_inv (s : BaseFlags) (n : String) (v : Bool) (s' : BaseFlags)
    (h : s.setFlag n v = .ok s') :
    ∃ i, mapGet s.flagIndices n = Option.some i ∧ s' = s.setBit i v := by
  unfold BaseFlags.setFlag at h
  cases hm : mapGet s.flagIndices n with
  | none =>
    rw [hm] at h
    simp at h
  | some i =>
    rw [hm] at h
    simp at h
    exact ⟨i, rfl, h.symm⟩

theorem toggleFlag_ok_inv (s : BaseFlags) (n : String) (s' : BaseFlags)
    (h : s.toggleFlag n = .ok s') :
    ∃ i, mapGet s.flagIndices n = Option.some i ∧
      s' = s.setBit i (!(s.getBit i)) := by
  unfold BaseFlags.toggleFlag at h
  cases hm : mapGet s.flagIndices n with
  | none =>
    rw [hm] at h
    simp at h
  | some i =>
    rw [hm] at h
    simp at h
    exact ⟨i, rfl, h.symm⟩

/-- Concrete one-flag container used in the concrete evaluations. -/
theorem mkByteFlags_f0 :
    mkByteFlags ["f0"] = .ok (⟨0, 1, ["f0"], [("f0", 0)]⟩ : BaseFlags) := by
  have htrim : ∀ n ∈ ["f0"], n.trim ≠ "" := by
    intro n hn
    have hn2 : n = "f0" := by simpa using hn
    subst hn2
    rw [trim_eq_self "f0" (by decide) (by decide)]
    decide
  rw [mkByteFlags_eq _ (by decide),
    mkBaseFlags_ok 8 ["f0"] (by decide) (by decide) (by decide) htrim]
  rfl

theorem mkLongFlags_f0 :
    mkLongFlags ["f0"] = .ok (⟨0, 1, ["f0"], [("f0", 0)]⟩ : BaseFlags) := by
  have htrim : ∀ n ∈ ["f0"], n.trim ≠ "" := by
    intro n hn
    have hn2 : n = "f0" := by simpa using hn
    subst hn2
    rw [trim_eq_self "f0" (by decide) (by decide)]
    decide
  rw [mkLongFlags_eq _ (by decide),
    mkBaseFlags_ok 32 ["f0"] (by decide) (by decide) (by decide) htrim]
  rfl

/-- Concrete two-flag 8-bit container used as witness input. -/
def wByteState : BaseFlags := ⟨0, 2, ["f0", "f1"], [("f0", 0), ("f1", 1)]⟩

/-! ## Claim theorems -/

/-- C1 (counterexample): the claim states that `toggleFlags` raises
`UnknownFlag` whenever an argument is not a registered name.  On the
container built from `["f0"]`, `toggleFlags("nope")` does not raise: it
returns the container unchanged instead of an error. -/
theorem C1_counterexample :
    (mkByteFlags ["f0"] >>= fun s => s.toggleFlags ["nope"])
      = .ok (⟨0, 1, ["f0"], [("f0", 0)]⟩ : BaseFlags) := by
  rw [mkByteFlags_f0, except_bind_ok]
  decide

/-- C1 (amended): `toggleFlags` never raises.  It behaves exactly as if
the unknown names were removed from the argument list (each registered
name is toggled in sequence, unknown names are silently ignored), it never
changes the registry, and on a single registered name it agrees with
`toggleFlag`. -/
theorem C1_toggleFlags_skips_unknown (s : BaseFlags) (names : List String) :
    ∃ s', s.toggleFlags names = .ok s' ∧
      s.toggleFlags (names.filter (fun n => s.hasFlag n)) = .ok s' ∧
      s'.flagList = s.flagList ∧ s'.flagIndices = s.flagIndices ∧
      ∀ n, s.hasFlag n = true → s.toggleFlags [n] = s.toggleFlag n := by
  obtain ⟨s', h1, hni, hfl, hfi⟩ := toggleFlags_ok names s
  refine ⟨s', h1, ?_, hfl, hfi, fun n hn => toggleFlags_single s n hn⟩
  rw [toggleFlags_filter]
  exact h1

/-- C1 (witness): the amended statement applied to the concrete container
with flag "f0" and the argument list `["f0", "nope"]`. -/
theorem C1_toggleFlags_skips_unknown_witness :
    ∃ s', BaseFlags.toggleFlags ⟨0, 1, ["f0"], [("f0", 0)]⟩ ["f0", "nope"]
        = .ok s' ∧
      BaseFlags.toggleFlags ⟨0, 1, ["f0"], [("f0", 0)]⟩
        (["f0", "nope"].filter
          (fun n => (⟨0, 1, ["f0"], [("f0", 0)]⟩ : BaseFlags).hasFlag n))
        = .ok s' ∧
      s'.flagList = (⟨0, 1, ["f0"], [("f0", 0)]⟩ : BaseFlags).flagList ∧
      s'.flagIndices = (⟨0, 1, ["f0"], [("f0", 0)]⟩ : BaseFlags).flagIndices ∧
      ∀ n, (⟨0, 1, ["f0"], [("f0", 0)]⟩ : BaseFlags).hasFlag n = true →
        BaseFlags.toggleFlags ⟨0, 1, ["f0"], [("f0", 0)]⟩ [n]
          = BaseFlags.toggleFlag ⟨0, 1, ["f0"], [("f0", 0)]⟩ n :=
  C1_toggleFlags_skips_unknown ⟨0, 1, ["f0"], [("f0", 0)]⟩ ["f0", "nope"]

/-- C2 (code bug evaluation): on the 32-bit variant, the stored value can
become negative.  Load 2^31 (a legal value, `fromLong` accepts it), then
`setFlag("f0", true)`: the JavaScript `|=` converts the operand with
ToInt32, so the stored value becomes -2147483647, violating the invariant
that `value` always lies in `[0, 2^capacity - 1]`. -/
theorem C2_long_value_goes_negative :
    ((mkLongFlags ["f0"] >>= fun s => s.fromLong 2147483648) >>= fun s =>
        s.setFlag "f0" true)
      = .ok (⟨-2147483647, 1, ["f0"], [("f0", 0)]⟩ : BaseFlags) ∧
    (⟨-2147483647, 1, ["f0"], [("f0", 0)]⟩ : BaseFlags).toValue < 0 := by
  constructor
  · rw [mkLongFlags_f0, except_bind_ok]
    decide
  · decide

/-- C3 (code bug evaluation): a reachable 32-bit container state whose
`toValue()` cannot be fed back through `fromValue` on a fresh container
with the same names: the stored value is negative (see C2), so the
round-trip construction raises instead of succeeding. -/
theorem C3_long_roundtrip_fails :
    ((mkLongFlags ["f0"] >>= fun s => s.fromLong 2147483648) >>= fun s =>
        s.setFlag "f0" true)
      = .ok (⟨-2147483647, 1, ["f0"], [("f0", 0)]⟩ : BaseFlags) ∧
    (⟨-2147483647, 1, ["f0"], [("f0", 0)]⟩ : BaseFlags).toValue = -2147483647 ∧
    (mkLongFlags ["f0"] >>= fun t => t.fromLong ((-2147483647 : Int) : Rat))
      = .error (.invalidArgument "Value must be integer 0-4294967295") := by
  refine ⟨?_, by decide, ?_⟩
  · rw [mkLongFlags_f0, except_bind_ok]
    decide
  · rw [mkLongFlags_f0, except_bind_ok]
    decide

/-- C4: `any()` is true exactly when the whole stored integer is nonzero,
`none()` is its strict negation, `count()` examines only the registered bit
positions `0 .. length(names) - 1` of the 32-bit pattern of the stored
value, and a value loaded via `fromValue` whose set bits all lie beyond the
registered positions yields `any() = true` while `count() = 0`. -/
theorem C4_any_count_none (cap : Nat) (s : BaseFlags) (hWF : WF cap s)
    (hcap : cap ≤ 32) :
    (s.any = true ↔ s.toValue ≠ 0) ∧
    (s.none = !s.any) ∧
    (s.count = ((List.range s.flagList.length).filter
      (fun i => (jsToUint32 s.value).testBit i)).length) ∧
    (∀ (M : Int) (v : Rat), v.den = 1 → 0 < v → v ≤ (M : Rat) →
      (∀ i, i < s.flagList.length → (jsToUint32 v.num).testBit i = false) →
      ∃ s', s.fromValue M v = .ok s' ∧ s'.any = true ∧ s'.count = 0) := by
  refine ⟨any_iff s, none_eq_not_any s, count_eq cap s hWF hcap, ?_⟩
  intro M v h1 h2 h3 h4
  refine ⟨{ s with value := v.num },
    fromValue_ok M s v h1 (le_of_lt h2) h3, ?_, ?_⟩
  · have hnum : 0 < v.num := Rat.num_pos.mpr h2
    show decide (({ s with value := v.num } : BaseFlags).value ≠ 0) = true
    rw [decide_eq_true_eq]
    show v.num ≠ 0
    omega
  · have hWF2 : WF cap ({ s with value := v.num } : BaseFlags) := hWF
    rw [count_eq cap _ hWF2 hcap]
    have hnil : ((List.range ({ s with value := v.num } : BaseFlags).flagList.length).filter
        (fun i => (jsToUint32 ({ s with value := v.num } : BaseFlags).value).testBit i)) = [] := by
      rw [List.filter_eq_nil_iff]
      intro i hi
      have := h4 i (List.mem_range.mp hi)
      simp [this]
    rw [hnil]
    rfl

/-- C4 (witness): the statement applied to the concrete 8-bit container
with flags "f0", "f1". -/
theorem C4_any_count_none_witness :
    WF 8 wByteState ∧
    ((wByteState.any = true ↔ wByteState.toValue ≠ 0) ∧
    (wByteState.none = !wByteState.any) ∧
    (wByteState.count = ((List.range wByteState.flagList.length).filter
      (fun i => (jsToUint32 wByteState.value).testBit i)).length) ∧
    (∀ (M : Int) (v : Rat), v.den = 1 → 0 < v → v ≤ (M : Rat) →
      (∀ i, i < wByteState.flagList.length → (jsToUint32 v.num).testBit i = false) →
      ∃ s', wByteState.fromValue M v = .ok s' ∧ s'.any = true ∧ s'.count = 0)) :=
  ⟨by decide, C4_any_count_none 8 wByteState (by decide) (by decide)⟩

/-- C5: `setFlags` always succeeds (it never raises on unknown keys); it
sets every registered key of the mapping to its mapped value, silently
ignores unregistered keys, leaves every flag not mentioned in the mapping
unchanged, and never changes the registry.  (The source returns `this`;
the embedding returns the updated state.) -/
theorem C5_setFlags_merge (cap : Nat) (s : BaseFlags) (hWF : WF cap s)
    (hcap : cap ≤ 32) (m : List (String × Bool))
    (hm : (m.map Prod.fst).Nodup) :
    ∃ s', s.setFlags m = .ok s' ∧
      s'.flagList = s.flagList ∧ s'.flagIndices = s.flagIndices ∧
      (∀ n v, (n, v) ∈ m → s.hasFlag n = true → s'.getFlag n = .ok v) ∧
      (∀ n, n ∉ m.map Prod.fst → s'.getFlag n = s.getFlag n) := by
  obtain ⟨s', h1, -, h3, h4, h5, h6⟩ := setFlags_spec cap hcap m s hWF hm
  exact ⟨s', h1, h3, h4, h5, h6⟩

/-- C5 (witness): the statement applied to the concrete container and the
mapping `{f0: true, zzz: false}` whose second key is not registered. -/
theorem C5_setFlags_merge_witness :
    ∃ s', wByteState.setFlags [("f0", true), ("zzz", false)] = .ok s' ∧
      s'.flagList = wByteState.flagList ∧
      s'.flagIndices = wByteState.flagIndices ∧
      (∀ n v, (n, v) ∈ [("f0", true), ("zzz", false)] →
        wByteState.hasFlag n = true → s'.getFlag n = .ok v) ∧
      (∀ n, n ∉ [("f0", true), ("zzz", false)].map Prod.fst →
        s'.getFlag n = wByteState.getFlag n) :=
  C5_setFlags_merge 8 wByteState (by decide) (by decide)
    [("f0", true), ("zzz", false)] (by decide)

/-- C9: the single-flag mutators `setFlag` and `toggleFlag` change at most
the one bit of the named flag: any other registered flag reads the same
value afterwards, and the registry is never modified. -/
theorem C9_single_flag_frame (cap : Nat) (s : BaseFlags) (hWF : WF cap s)
    (hcap : cap ≤ 32) (n m : String) (hnm : m ≠ n) :
    (∀ v s', s.setFlag n v = .ok s' → s'.getFlag m = s.getFlag m ∧
      s'.flagList = s.flagList ∧ s'.flagIndices = s.flagIndices) ∧
    (∀ s', s.toggleFlag n = .ok s' → s'.getFlag m = s.getFlag m ∧
      s'.flagList = s.flagList ∧ s'.flagIndices = s.flagIndices) := by
  constructor
  · intro v s' h
    obtain ⟨i, hi, rfl⟩ := setFlag_ok_inv s n v s' h
    exact ⟨getFlag_setBit_other cap s hWF hcap n m i v hi hnm,
      (setBit_registry s i v).2.1, (setBit_registry s i v).2.2⟩
  · intro s' h
    obtain ⟨i, hi, rfl⟩ := toggleFlag_ok_inv s n s' h
    exact ⟨getFlag_setBit_other cap s hWF hcap n m i _ hi hnm,
      (setBit_registry s i _).2.1, (setBit_registry s i _).2.2⟩

/-- C9 (witness): the statement applied to the concrete container with
distinct registered flags "f0" and "f1". -/
theorem C9_single_flag_frame_witness :
    (∀ v s', wByteState.setFlag "f0" v = .ok s' →
      s'.getFlag "f1" = wByteState.getFlag "f1" ∧
      s'.flagList = wByteState.flagList ∧
      s'.flagIndices = wByteState.flagIndices) ∧
    (∀ s', wByteState.toggleFlag "f0" = .ok s' →
      s'.getFlag "f1" = wByteState.getFlag "f1" ∧
      s'.flagList = wByteState.flagList ∧
      s'.flagIndices = wByteState.flagIndices) :=
  C9_single_flag_frame 8 wByteState (by decide) (by decide) "f0" "f1" (by decide)

/-- C10: a `fromValue` call (and each width alias) with a non-integer or
out-of-range argument raises `InvalidArgument`; in the source the check
precedes the assignment, so a raising call leaves the container exactly as
it was — in the embedding an error return carries no successor state, and
on success the registry is untouched and only `value` is replaced. -/
theorem C10_fromValue_error_frame (s : BaseFlags) (v : Rat) :
    ((¬(v.den = 1) ∨ v < 0 ∨ v > (255 : Rat)) →
      s.fromByte v = .error (.invalidArgument "Value must be integer 0-255")) ∧
    ((¬(v.den = 1) ∨ v < 0 ∨ v > (65535 : Rat)) →
      s.fromShort v = .error (.invalidArgument "Value must be integer 0-65535")) ∧
    ((¬(v.den = 1) ∨ v < 0 ∨ v > (4294967295 : Rat)) →
      s.fromLong v = .error (.invalidArgument "Value must be integer 0-4294967295")) ∧
    (∀ (M : Int) (s' : BaseFlags), s.fromValue M v = .ok s' →
      s'.nextIndex = s.nextIndex ∧ s'.flagList = s.flagList ∧
      s'.flagIndices = s.flagIndices ∧ s'.value = v.num) := by
  refine ⟨?_, ?_, ?_, ?_⟩
  · intro h
    have hc : ((255 : Int) : Rat) = (255 : Rat) := by norm_num
    show s.fromValue 255 v = _
    rw [fromValue_err 255 s v (by rw [hc]; exact h)]
    decide
  · intro h
    have hc : ((65535 : Int) : Rat) = (65535 : Rat) := by norm_num
    show s.fromValue 65535 v = _
    rw [fromValue_err 65535 s v (by rw [hc]; exact h)]
    decide
  · intro h
    have hc : ((4294967295 : Int) : Rat) = (4294967295 : Rat) := by norm_num
    show s.fromValue 4294967295 v = _
    rw [fromValue_err 4294967295 s v (by rw [hc]; exact h)]
    decide
  · intro M s' h
    obtain ⟨-, -, -, rfl⟩ := fromValue_ok_inv M s v s' h
    exact ⟨rfl, rfl, rfl, rfl⟩

/-- The non-integer number 3/2, used as invalid `fromValue` input. -/
def threeHalves : Rat := Rat.mk' 3 2 (by decide) (by decide)

/-- C10 (witness): `fromByte(1.5)` on the concrete container raises
`InvalidArgument`. -/
theorem C10_fromValue_error_frame_witness :
    (¬(threeHalves.den = 1) ∨ threeHalves < 0 ∨ threeHalves > (255 : Rat)) ∧
    wByteState.fromByte threeHalves
      = .error (.invalidArgument "Value must be integer 0-255") :=
  ⟨Or.inl (by decide),
    (C10_fromValue_error_frame wByteState threeHalves).1 (Or.inl (by decide))⟩

theorem mk_variant_state (cap : Nat) (names : List String) (h1 : names ≠ [])
    (hlen : names.length ≤ cap) (h2 : names.Nodup)
    (h3 : ∀ n ∈ names, n.trim ≠ "") :
    ∃ s, mkBaseFlags cap names = .ok s ∧ s.toValue = 0 ∧
      s.getFlagNames = names ∧
      ∀ j (hj : j < names.length),
        mapGet s.flagIndices (names.get ⟨j, hj⟩) = Option.some j := by
  refine ⟨_, mkBaseFlags_ok cap names h1 hlen h2 h3, rfl, rfl, ?_⟩
  intro j hj
  have hWF : WF cap (⟨0, names.length, names, indexMapOf names 0⟩ : BaseFlags) :=
    ⟨rfl, rfl, h2, hlen⟩
  exact wf_mapGet_get cap _ hWF j hj

/-- C6: for every name list of length 1..capacity with no duplicates and
no blank names, construction succeeds on the matching variant, the new
new container has `toValue()` 0, `getFlagNames()` returns the names in input
order, and the i-th name is registered at bit index i. -/
theorem C6_construction (names : List String) (h1 : names ≠ [])
    (h2 : names.Nodup) (h3 : ∀ n ∈ names, n.trim ≠ "") :
    (names.length ≤ 8 → ∃ s, mkByteFlags names = .ok s ∧ s.toValue = 0 ∧
      s.getFlagNames = names ∧
      ∀ j (hj : j < names.length),
        mapGet s.flagIndices (names.get ⟨j, hj⟩) = Option.some j) ∧
    (names.length ≤ 16 → ∃ s, mkShortFlags names = .ok s ∧ s.toValue = 0 ∧
      s.getFlagNames = names ∧
      ∀ j (hj : j < names.length),
        mapGet s.flagIndices (names.get ⟨j, hj⟩) = Option.some j) ∧
    (names.length ≤ 32 → ∃ s, mkLongFlags names = .ok s ∧ s.toValue = 0 ∧
      s.getFlagNames = names ∧
      ∀ j (hj : j < names.length),
        mapGet s.flagIndices (names.get ⟨j, hj⟩) = Option.some j) := by
  refine ⟨fun hlen => ?_, fun hlen => ?_, fun hlen => ?_⟩
  · rw [mkByteFlags_eq names hlen]
    exact mk_variant_state 8 names h1 hlen h2 h3
  · rw [mkShortFlags_eq names hlen]
    exact mk_variant_state 16 names h1 hlen h2 h3
  · rw [mkLongFlags_eq names hlen]
    exact mk_variant_state 32 names h1 hlen h2 h3

/-- C6 (witness): the statement applied to the concrete list
`["f0", "f1"]`. -/
theorem C6_construction_witness :
    ((["f0", "f1"] : List String) ≠ [] ∧ (["f0", "f1"] : List String).Nodup ∧
      ∀ n ∈ (["f0", "f1"] : List String), n.trim ≠ "") ∧
    ((["f0", "f1"] : List String).length ≤ 8 →
      ∃ s, mkByteFlags ["f0", "f1"] = .ok s ∧ s.toValue = 0 ∧
        s.getFlagNames = ["f0", "f1"] ∧
        ∀ j (hj : j < (["f0", "f1"] : List String).length),
          mapGet s.flagIndices ((["f0", "f1"] : List String).get ⟨j, hj⟩)
            = Option.some j) := by
  have htrim : ∀ n ∈ (["f0", "f1"] : List String), n.trim ≠ "" := by
    intro n hn
    have h2 : n = "f0" ∨ n = "f1" := by simpa using hn
    rcases h2 with rfl | rfl
    · rw [trim_eq_self "f0" (by decide) (by decide)]
      decide
    · rw [trim_eq_self "f1" (by decide) (by decide)]
      decide
  exact ⟨⟨by decide, by decide, htrim⟩,
    (C6_construction ["f0", "f1"] (by decide) (by decide) htrim).1⟩

/-- C7: construction fails exactly as specified: an empty list raises
`InvalidArgument`, a list longer than the variant capacity raises
`InvalidArgument`, a list with a duplicate (and otherwise valid) name
raises `DuplicateName`, a list containing a name that is blank after
trimming (and otherwise valid) raises `InvalidArgument`; conversely a
successful construction implies the list was nonempty, within capacity,
duplicate-free and blank-free. -/
theorem C7_construction_failures (names : List String) :
    (names = [] →
      mkByteFlags names
        = .error (.invalidArgument "At least one flag name must be provided") ∧
      mkShortFlags names
        = .error (.invalidArgument "At least one flag name must be provided") ∧
      mkLongFlags names
        = .error (.invalidArgument "At least one flag name must be provided")) ∧
    (names.length > 8 → ∃ msg, mkByteFlags names = .error (.invalidArgument msg)) ∧
    (names.length > 16 → ∃ msg, mkShortFlags names = .error (.invalidArgument msg)) ∧
    (names.length > 32 → ∃ msg, mkLongFlags names = .error (.invalidArgument msg)) ∧
    (¬names.Nodup → (∀ n ∈ names, n.trim ≠ "") →
      (names.length ≤ 8 → ∃ m, mkByteFlags names = .error (.duplicateName m)) ∧
      (names.length ≤ 16 → ∃ m, mkShortFlags names = .error (.duplicateName m)) ∧
      (names.length ≤ 32 → ∃ m, mkLongFlags names = .error (.duplicateName m))) ∧
    ((∃ n ∈ names, n.trim = "") → names.Nodup →
      (names.length ≤ 8 → mkByteFlags names
        = .error (.invalidArgument "Flag name must be a non-empty string")) ∧
      (names.length ≤ 16 → mkShortFlags names
        = .error (.invalidArgument "Flag name must be a non-empty string")) ∧
      (names.length ≤ 32 → mkLongFlags names
        = .error (.invalidArgument "Flag name must be a non-empty string"))) ∧
    (∀ s, mkByteFlags names = .ok s →
      names ≠ [] ∧ names.length ≤ 8 ∧ names.Nodup ∧
        ∀ n ∈ names, n.trim ≠ "") ∧
    (∀ s, mkShortFlags names = .ok s →
      names ≠ [] ∧ names.length ≤ 16 ∧ names.Nodup ∧
        ∀ n ∈ names, n.trim ≠ "") ∧
    (∀ s, mkLongFlags names = .ok s →
      names ≠ [] ∧ names.length ≤ 32 ∧ names.Nodup ∧
        ∀ n ∈ names, n.trim ≠ "") := by
  refine ⟨?_, ?_, ?_, ?_, ?_, ?_, ?_, ?_, ?_⟩
  · rintro rfl
    refine ⟨?_, ?_, ?_⟩
    · rw [mkByteFlags_eq [] (by decide)]
      exact mkBaseFlags_empty 8
    · rw [mkShortFlags_eq [] (by decide)]
      exact mkBaseFlags_empty 16
    · rw [mkLongFlags_eq [] (by decide)]
      exact mkBaseFlags_empty 32
  · intro h
    exact ⟨_, mkByteFlags_too_long names h⟩
  · intro h
    exact ⟨_, mkShortFlags_too_long names h⟩
  · intro h
    exact ⟨_, mkLongFlags_too_long names h⟩
  · intro hnd htrim
    refine ⟨fun hl => ?_, fun hl => ?_, fun hl => ?_⟩
    · rw [mkByteFlags_eq names hl]
      exact mkBaseFlags_dup 8 names hl htrim hnd
    · rw [mkShortFlags_eq names hl]
      exact mkBaseFlags_dup 16 names hl htrim hnd
    · rw [mkLongFlags_eq names hl]
      exact mkBaseFlags_dup 32 names hl htrim hnd
  · intro hblank hnd
    refine ⟨fun hl => ?_, fun hl => ?_, fun hl => ?_⟩
    · rw [mkByteFlags_eq names hl]
      exact mkBaseFlags_blank 8 names hl hnd hblank
    · rw [mkShortFlags_eq names hl]
      exact mkBaseFlags_blank 16 names hl hnd hblank
    · rw [mkLongFlags_eq names hl]
      exact mkBaseFlags_blank 32 names hl hnd hblank
  · intro s h
    exact mkBaseFlags_ok_inv 8 names s (mkByteFlags_ok_inv names s h)
  · intro s h
    exact mkBaseFlags_ok_inv 16 names s (mkShortFlags_ok_inv names s h)
  · intro s h
    exact mkBaseFlags_ok_inv 32 names s (mkLongFlags_ok_inv names s h)

/-- C7 (witness): the duplicate case applied to the concrete list
`["a", "a"]`. -/
theorem C7_construction_failures_witness :
    ¬(["a", "a"] : List String).Nodup ∧
    (∀ n ∈ (["a", "a"] : List String), n.trim ≠ "") ∧
    ∃ m, mkByteFlags ["a", "a"] = .error (.duplicateName m) := by
  have htrim : ∀ n ∈ (["a", "a"] : List String), n.trim ≠ "" := by
    intro n hn
    have h2 : n = "a" ∨ n = "a" := by simpa using hn
    rcases h2 with rfl | rfl <;>
      (rw [trim_eq_self "a" (by decide) (by decide)]; decide)
  exact ⟨by decide, htrim,
    ((C7_construction_failures ["a", "a"]).2.2.2.2.1 (by decide) htrim).1
      (by decide)⟩

theorem toJSON_keys_perm (s : BaseFlags) :
    (s.toJSON.map Prod.fst).Perm s.flagList := by
  have h := (jsKeyOrder_perm s.toObject).map Prod.fst
  rwa [toObject_keys] at h

theorem fromJSON_roundtrip (cap : Nat) (hcap : cap ≤ 32) (s : BaseFlags)
    (hWF : WF cap s) (hne : s.flagList ≠ [])
    (hnb : ∀ n ∈ s.flagList, n.trim ≠ "") :
    ∃ d, (mkBaseFlags cap (s.toJSON.map Prod.fst) >>= fun inst =>
        inst.setFlags s.toJSON) = .ok d ∧
      ∀ n, d.toObject.lookup n = s.toObject.lookup n := by
  have hperm : (s.toJSON).Perm s.toObject := jsKeyOrder_perm s.toObject
  have hkeysperm := toJSON_keys_perm s
  have hkeysnd : (s.toJSON.map Prod.fst).Nodup :=
    (hkeysperm.nodup_iff).mpr hWF.2.2.1
  have hkeyslen : (s.toJSON.map Prod.fst).length = s.flagList.length :=
    hkeysperm.length_eq
  have hkeysne : s.toJSON.map Prod.fst ≠ [] := by
    intro hc
    apply hne
    apply List.length_eq_zero.mp
    rw [← hkeyslen, hc]
    rfl
  have hkeysnb : ∀ n ∈ s.toJSON.map Prod.fst, n.trim ≠ "" := fun n hn =>
    hnb n (hkeysperm.mem_iff.mp hn)
  have hmk := mkBaseFlags_ok cap _ hkeysne
    (by rw [hkeyslen]; exact hWF.2.2.2) hkeysnd hkeysnb
  have hWFt : WF cap (⟨0, (s.toJSON.map Prod.fst).length, s.toJSON.map Prod.fst,
      indexMapOf (s.toJSON.map Prod.fst) 0⟩ : BaseFlags) :=
    ⟨rfl, rfl, hkeysnd, by rw [hkeyslen]; exact hWF.2.2.2⟩
  obtain ⟨d, hset, -, hdfl, hdfi, hassign, hframe⟩ :=
    setFlags_spec cap hcap s.toJSON
      (⟨0, (s.toJSON.map Prod.fst).length, s.toJSON.map Prod.fst,
        indexMapOf (s.toJSON.map Prod.fst) 0⟩ : BaseFlags) hWFt hkeysnd
  refine ⟨d, ?_, ?_⟩
  · rw [hmk, except_bind_ok]
    exact hset
  · intro n
    by_cases hm : n ∈ s.flagList
    · have hhas : s.hasFlag n = true := (hasFlag_iff_mem cap s hWF n).mpr hm
      obtain ⟨i, hi⟩ := Option.isSome_iff_exists.mp hhas
      have hpair : (n, s.getBit i) ∈ s.toObject := by
        have hpm : (n, (match s.getFlag n with
            | .ok b => b
            | .error _ => false)) ∈ s.toObject := by
          unfold BaseFlags.toObject
          exact List.mem_map_of_mem _ hm
        rwa [getFlag_match_val s n i hi] at hpm
      have hpair2 : (n, s.getBit i) ∈ s.toJSON := hperm.mem_iff.mpr hpair
      have hnt : n ∈ s.toJSON.map Prod.fst := hkeysperm.mem_iff.mpr hm
      have hhast : (⟨0, (s.toJSON.map Prod.fst).length, s.toJSON.map Prod.fst,
          indexMapOf (s.toJSON.map Prod.fst) 0⟩ : BaseFlags).hasFlag n = true :=
        (hasFlag_iff_mem cap _ hWFt n).mpr hnt
      have hd := hassign n (s.getBit i) hpair2 hhast
      have hl : d.toObject.lookup n = Option.some (s.getBit i) := by
        rw [toObject_lookup d n, if_pos (by rw [hdfl]; exact hnt)]
        rw [hd]
      have hr : s.toObject.lookup n = Option.some (s.getBit i) := by
        rw [toObject_lookup s n, if_pos hm, getFlag_match_val s n i hi]
      rw [hl, hr]
    · have hnmem : n ∉ s.toJSON.map Prod.fst := fun hc =>
        hm (hkeysperm.mem_iff.mp hc)
      rw [toObject_lookup d n, toObject_lookup s n, if_neg hm,
        if_neg (by rw [hdfl]; exact hnmem)]

/-- C8: `fromJSON(toJSON())` succeeds and reproduces an equal `toObject()`
(equal as a name-to-value mapping; JavaScript reorders integer-like object
keys, which permutes fields but preserves the value of every name).  Stated for
the variant whose capacity matches the container. -/
theorem C8_fromJSON_roundtrip (cap : Nat) (s : BaseFlags) (hWF : WF cap s)
    (hne : s.flagList ≠ []) (hnb : ∀ n ∈ s.flagList, n.trim ≠ "") :
    (cap = 8 → ∃ d, byteFlagsFromJSON s.toJSON = .ok d ∧
      ∀ n, d.toObject.lookup n = s.toObject.lookup n) ∧
    (cap = 16 → ∃ d, shortFlagsFromJSON s.toJSON = .ok d ∧
      ∀ n, d.toObject.lookup n = s.toObject.lookup n) ∧
    (cap = 32 → ∃ d, longFlagsFromJSON s.toJSON = .ok d ∧
      ∀ n, d.toObject.lookup n = s.toObject.lookup n) := by
  refine ⟨fun hc => ?_, fun hc => ?_, fun hc => ?_⟩ <;> subst hc
  · obtain ⟨d, hok, hlook⟩ := fromJSON_roundtrip 8 (by norm_num) s hWF hne hnb
    refine ⟨d, ?_, hlook⟩
    unfold byteFlagsFromJSON
    rw [mkByteFlags_eq _ (by rw [(toJSON_keys_perm s).length_eq]; exact hWF.2.2.2)]
    exact hok
  · obtain ⟨d, hok, hlook⟩ := fromJSON_roundtrip 16 (by norm_num) s hWF hne hnb
    refine ⟨d, ?_, hlook⟩
    unfold shortFlagsFromJSON
    rw [mkShortFlags_eq _ (by rw [(toJSON_keys_perm s).length_eq]; exact hWF.2.2.2)]
    exact hok
  · obtain ⟨d, hok, hlook⟩ := fromJSON_roundtrip 32 (by norm_num) s hWF hne hnb
    refine ⟨d, ?_, hlook⟩
    unfold longFlagsFromJSON
    rw [mkLongFlags_eq _ (by rw [(toJSON_keys_perm s).length_eq]; exact hWF.2.2.2)]
    exact hok

/-- C8 (witness): the round trip applied to the concrete 8-bit container
with flags "f0", "f1". -/
theorem C8_fromJSON_roundtrip_witness :
    WF 8 wByteState ∧
    ∃ d, byteFlagsFromJSON wByteState.toJSON = .ok d ∧
      ∀ n, d.toObject.lookup n = wByteState.toObject.lookup n := by
  have hnb : ∀ n ∈ wByteState.flagList, n.trim ≠ "" := by
    intro n hn
    have h2 : n = "f0" ∨ n = "f1" := by simpa [wByteState] using hn
    rcases h2 with rfl | rfl
    · rw [trim_eq_self "f0" (by decide) (by decide)]
      decide
    · rw [trim_eq_self "f1" (by decide) (by decide)]
      decide
  exact ⟨by decide,
    (C8_fromJSON_roundtrip 8 wByteState (by decide) (by decide) hnb).1 rfl⟩
